import Mathlib

/-!
Verification of the glock lease service (a DynamoDB-backed distributed lock).

The embedding models:
* the persisted lease record (one DynamoDB item per lock name, key `LockName`,
  attributes `Nonce`, `Fence`, `AcquireTime`, `HeartbeatTime`, `ExpireTime`, `Body`);
* the four backend operations `Acquire`, `Heartbeat`, `UpdateValue`, `Release`,
  each a single conditional update against the store, translated clause by
  clause from their `ConditionExpression` / `UpdateExpression` strings;
* the HTTP handlers (`AcquireHandler`, `UpdateValueHandler`, `HeartbeatHandler`,
  `ReleaseHandler`) and the gorilla/mux route table, down to which backend call
  (if any) a request triggers.

Timestamps are `Int` nanoseconds since the Unix epoch (the Go code stores
`time.Time.UnixNano()` as a DynamoDB number).  DynamoDB numbers are unbounded
decimals, so numeric attributes are modelled as unbounded `Int`; `now` is the
process clock, lifted to an explicit parameter.  The store is modelled as an
association list from lock names to records; the model's store is always
available, so the infrastructure-error paths (network failures surfaced as 500)
are outside the state space and every conditional update either applies or
reports a condition failure.
-/

namespace Glock

/-- One persisted lease record, as stored in the DynamoDB table.  A fresh
record created by `Acquire` has no `Body` attribute; since `extractString`
ignores the missing-attribute error and yields `""`, absence of `Body` is
modelled as the empty string. -/
structure LeaseRecord where
  nonce : String
  fence : Int
  acquireTime : Int
  heartbeatTime : Int
  expireTime : Int
  body : String
deriving Repr, DecidableEq

/-- The table: an association list from lock name (`LockName`) to record. -/
abbrev Store := List (String × LeaseRecord)

def Store.find : Store → String → Option LeaseRecord
  | [], _ => none
  | (n, r) :: rest, name => if n = name then some r else Store.find rest name

def Store.put : Store → String → LeaseRecord → Store
  | [], name, r => [(name, r)]
  | (n, r0) :: rest, name, r =>
      if n = name then (n, r) :: rest else (n, r0) :: Store.put rest name r

/-- The value returned from a successful `Acquire` (the `ALL_NEW` attributes of
the conditional update, i.e. the post-update record). -/
structure Acquisition where
  acquireTime : Int
  expireTime : Int
  fence : Int
  body : String
deriving Repr, DecidableEq

/-- The expected (client-correctable) failures, i.e. the `ExpectedError` values
the backend produces from a `ConditionalCheckFailedException`:
`leaseHeld` is Acquire's "Lock in use", `leaseExpiredOrFenced` is
Heartbeat/UpdateValue's "Lock expired". -/
inductive LeaseError where
  | leaseHeld
  | leaseExpiredOrFenced
deriving Repr, DecidableEq

deriving instance DecidableEq for Except

/-- `DynamoBackend.Acquire`.  Condition:
`attribute_not_exists(LockName) OR ExpireTime < :now OR Nonce = :nonce`.
Update: `SET Nonce = :nonce, Fence = if_not_exists(Fence, :zero) + :one,
AcquireTime = :now, HeartbeatTime = :now, ExpireTime = :expire`
(so an absent record gets fence 0 + 1 = 1).  Returns the post-update record. -/
def Acquire (s : Store) (name nonce : String) (duration now : Int) :
    Except LeaseError (Acquisition × Store) :=
  match s.find name with
  | none =>
      let r : LeaseRecord :=
        { nonce := nonce, fence := 0 + 1, acquireTime := now, heartbeatTime := now,
          expireTime := now + duration, body := "" }
      .ok (⟨r.acquireTime, r.expireTime, r.fence, r.body⟩, s.put name r)
  | some old =>
      if old.expireTime < now ∨ old.nonce = nonce then
        let r : LeaseRecord :=
          { old with
            nonce := nonce, fence := old.fence + 1, acquireTime := now,
            heartbeatTime := now, expireTime := now + duration }
        .ok (⟨r.acquireTime, r.expireTime, r.fence, r.body⟩, s.put name r)
      else .error .leaseHeld

/-- `true` iff `Acquire` succeeds on these arguments. -/
def acquireOk (s : Store) (name nonce : String) (duration now : Int) : Bool :=
  match Acquire s name nonce duration now with
  | .ok _ => true
  | .error _ => false

/-- `DynamoBackend.Heartbeat`.  Condition:
`attribute_exists(LockName) AND ExpireTime > :now AND Fence = :fence`.
The source's update expression is `SET HeartbeatTime :now, ExpireTime = :expire`,
which omits the `=` of the first SET action (see `heartbeatUpdateExpression`
below); per the spec's directive this latent defect is not reproduced and the
evident intent `HeartbeatTime = :now, ExpireTime = :expire` is modelled. -/
def Heartbeat (s : Store) (name : String) (fence extension now : Int) :
    Except LeaseError Store :=
  match s.find name with
  | none => .error .leaseExpiredOrFenced
  | some r =>
      if now < r.expireTime ∧ r.fence = fence then
        .ok (s.put name { r with heartbeatTime := now, expireTime := now + extension })
      else .error .leaseExpiredOrFenced

/-- `DynamoBackend.UpdateValue`.  Condition: same as `Heartbeat`.
Update: `SET Body = :value, HeartbeatTime = :now, ExpireTime = :expire`. -/
def UpdateValue (s : Store) (name : String) (fence extension : Int) (value : String)
    (now : Int) : Except LeaseError Store :=
  match s.find name with
  | none => .error .leaseExpiredOrFenced
  | some r =>
      if now < r.expireTime ∧ r.fence = fence then
        .ok (s.put name
          { r with body := value, heartbeatTime := now, expireTime := now + extension })
      else .error .leaseExpiredOrFenced

/-- `DynamoBackend.Release`.  Condition:
`attribute_exists(LockName) AND Fence = :fence`; update `SET ExpireTime = :zero`.
A `ConditionalCheckFailedException` is swallowed (`return nil`).  The source,
however, binds only `:zero` in `ExpressionAttributeValues` and never transmits
its `fence` argument, so `:fence` is undefined and a real backend rejects every
Release call with a `ValidationException` (which is not the swallowed error
code) before evaluating the condition: as written, Release always returns an
error and never mutates anything (see `releaseBoundValues` and the C3
theorem).  This definition models the evident intent of the written condition,
with `:fence` bound to the fence argument; on that intent semantics Release
always reports success and returns the (possibly unchanged) store. -/
def Release (s : Store) (name : String) (fence : Int) : Store :=
  match s.find name with
  | none => s
  | some r => if r.fence = fence then s.put name { r with expireTime := 0 } else s

/-- One backend call, with its per-call clock reading where the Go code takes
`time.Now()`. -/
inductive Op where
  | acquire (name nonce : String) (duration now : Int)
  | heartbeat (name : String) (fence extension now : Int)
  | updateValue (name : String) (fence extension : Int) (value : String) (now : Int)
  | release (name : String) (fence : Int)

/-- The store after one backend call (a failed conditional update mutates
nothing). -/
def applyOp (s : Store) : Op → Store
  | .acquire name nonce d t =>
      match Acquire s name nonce d t with
      | .ok (_, s') => s'
      | .error _ => s
  | .heartbeat name f e t =>
      match Heartbeat s name f e t with
      | .ok s' => s'
      | .error _ => s
  | .updateValue name f e v t =>
      match UpdateValue s name f e v t with
      | .ok s' => s'
      | .error _ => s
  | .release name f => Release s name f

def applyOps (s : Store) (ops : List Op) : Store := ops.foldl applyOp s

/-- The stored fence of a name, `if_not_exists(Fence, 0)`-style: 0 when the
record is absent. -/
def fenceOf (s : Store) (name : String) : Int :=
  match s.find name with
  | none => 0
  | some r => r.fence

/-! ### The literal expressions and their value bindings

The `ConditionExpression` / `UpdateExpression` strings passed to `UpdateItem`,
kept verbatim, together with the key sets of the accompanying
`ExpressionAttributeValues` maps.  Two kinds of request-level validity matter:
a SET action must be `path = value` (a clause without the `=` is rejected by
the service with a `ValidationException` before the condition is evaluated),
and every `:name` placeholder an expression uses must be bound in
`ExpressionAttributeValues` (an undefined placeholder is likewise rejected
with a `ValidationException` before the condition is evaluated). -/

def acquireConditionExpression : String :=
  "attribute_not_exists(LockName) OR ExpireTime < :now OR Nonce = :nonce"

def acquireUpdateExpression : String :=
  "SET Nonce = :nonce, Fence = if_not_exists(Fence, :zero) + :one, AcquireTime = :now, HeartbeatTime = :now, ExpireTime = :expire"

def heartbeatConditionExpression : String :=
  "attribute_exists(LockName) AND ExpireTime > :now AND Fence = :fence"

def heartbeatUpdateExpression : String :=
  "SET HeartbeatTime :now, ExpireTime = :expire"

def updateValueConditionExpression : String :=
  "attribute_exists(LockName) AND ExpireTime > :now AND Fence = :fence"

def updateValueUpdateExpression : String :=
  "SET Body = :value, HeartbeatTime = :now, ExpireTime = :expire"

def releaseConditionExpression : String :=
  "attribute_exists(LockName) AND Fence = :fence"

def releaseUpdateExpression : String :=
  "SET ExpireTime = :zero"

/-- The `ExpressionAttributeValues` keys each call binds. -/
def acquireBoundValues : List String := [":one", ":zero", ":now", ":expire", ":nonce"]

def heartbeatBoundValues : List String := [":fence", ":now", ":expire"]

def updateValueBoundValues : List String := [":now", ":expire", ":fence", ":value"]

def releaseBoundValues : List String := [":zero"]

/-- Split a character list at every occurrence of `c` (separators dropped). -/
def splitChar (c : Char) : List Char → List (List Char)
  | [] => [[]]
  | x :: xs =>
      match splitChar c xs with
      | [] => if x = c then [[], []] else [[x]]
      | y :: ys => if x = c then [] :: y :: ys else (x :: y) :: ys

/-- Whitespace-separated tokens of a character list. -/
def toks (cs : List Char) : List (List Char) :=
  (splitChar ' ' cs).filter (fun t => ¬ t.isEmpty)

/-- A single SET action is well formed when its second token is `=`
(`path = value ...`). -/
def setActionWellFormed (clause : List Char) : Bool :=
  match toks clause with
  | _ :: op :: _ :: _ => op = ['=']
  | _ => false

/-- An `UpdateExpression` of the form `SET a1, a2, ...` is well formed when
every comma-separated action is. -/
def setClausesWellFormed (e : String) : Bool :=
  match e.toList with
  | 'S' :: 'E' :: 'T' :: ' ' :: rest => (splitChar ',' rest).all setActionWellFormed
  | _ => false

/-- Leading alphanumeric run of a character list. -/
def takeAlphanum : List Char → List Char
  | [] => []
  | c :: cs => if c.isAlphanum then c :: takeAlphanum cs else []

/-- The `:name` expression attribute value placeholders an expression uses:
every whitespace-separated token starting with `:`, trimmed to its
alphanumeric run (so the tokens `:zero)` and `:nonce,` yield `:zero` and
`:nonce`). -/
def placeholdersOf (e : String) : List String :=
  (splitChar ' ' e.toList).filterMap fun tok =>
    match tok with
    | ':' :: rest => some (String.mk (':' :: takeAlphanum rest))
    | _ => none

/-- Every placeholder the given expressions use is a key of the call's
`ExpressionAttributeValues` map. -/
def expressionValuesBound (exprs : List String) (bound : List String) : Bool :=
  exprs.all fun e => (placeholdersOf e).all fun p => bound.contains p

/-! ### The HTTP transport -/

/-- `strconv.ParseInt(s, 10, 64)`: an optional single `+`/`-` sign, then at
least one decimal digit, and the signed value must fit in 64 bits. -/
def digitsToNat : List Char → Option Nat
  | [] => none
  | cs => cs.foldl
      (fun acc c =>
        match acc with
        | none => none
        | some n => if c.isDigit then some (n * 10 + (c.toNat - 48)) else none)
      (some 0)

def parseInt64 (s : String) : Option Int :=
  let signed : Bool × List Char :=
    match s.toList with
    | '-' :: rest => (true, rest)
    | '+' :: rest => (false, rest)
    | cs => (false, cs)
  match digitsToNat signed.2 with
  | none => none
  | some n =>
      let v : Int := if signed.1 then -(n : Int) else (n : Int)
      if -(2 ^ 63) ≤ v ∧ v ≤ 2 ^ 63 - 1 then some v else none

/-- The backend call an HTTP handler issues, with the arguments it forwards. -/
inductive BackendCall where
  | acquire (name nonce : String)
  | heartbeat (name : String) (fence : Int)
  | updateValue (name : String) (fence : Int) (value : String)
  | release (name : String) (fence : Int)
deriving Repr, DecidableEq

/-- What a handler produces: the response status actually sent (the first
`WriteHeader`; later `WriteHeader` calls on the same response are ignored by
`net/http`), the store after the request, and the backend call made, if any. -/
structure HandlerResult where
  status : Nat
  store : Store
  call : Option BackendCall
deriving Repr, DecidableEq

/-- The nonce the Acquire handler uses: the `nonce` URL query parameter, the
POST form field only when the query parameter is empty. -/
def effectiveNonce (queryNonce formNonce : String) : String :=
  if queryNonce = "" then formNonce else queryNonce

/-- `AcquireHandler`.  Checks key and nonce; the oversized-nonce branch writes
a 400 response but the source has no `return` there, so the handler falls
through and still calls `backend.Acquire` (the later `WriteHeader` is ignored,
hence the status stays 400). -/
def AcquireHandler (s : Store) (key queryNonce formNonce : String)
    (duration now : Int) : HandlerResult :=
  if key = "" then ⟨400, s, none⟩
  else if effectiveNonce queryNonce formNonce = "" then ⟨400, s, none⟩
  else if 64 < (effectiveNonce queryNonce formNonce).utf8ByteSize then
    match Acquire s key (effectiveNonce queryNonce formNonce) duration now with
    | .ok (_, s') => ⟨400, s', some (.acquire key (effectiveNonce queryNonce formNonce))⟩
    | .error _ => ⟨400, s, some (.acquire key (effectiveNonce queryNonce formNonce))⟩
  else
    match Acquire s key (effectiveNonce queryNonce formNonce) duration now with
    | .ok (_, s') => ⟨200, s', some (.acquire key (effectiveNonce queryNonce formNonce))⟩
    | .error _ => ⟨403, s, some (.acquire key (effectiveNonce queryNonce formNonce))⟩

/-- `UpdateValueHandler`: 400 on empty key, empty fence variable, or a fence
that does not parse as a 64-bit integer; otherwise calls
`backend.UpdateValue(key, fence, leaseDuration, body)` (403 on an expected
failure, 200 on success). -/
def UpdateValueHandler (s : Store) (key fenceStr bodyStr : String)
    (duration now : Int) : HandlerResult :=
  if key = "" then ⟨400, s, none⟩
  else if fenceStr = "" then ⟨400, s, none⟩
  else
    match parseInt64 fenceStr with
    | none => ⟨400, s, none⟩
    | some f =>
        match UpdateValue s key f duration bodyStr now with
        | .ok s' => ⟨200, s', some (.updateValue key f bodyStr)⟩
        | .error _ => ⟨403, s, some (.updateValue key f bodyStr)⟩

/-- `HeartbeatHandler`: same validation as `UpdateValueHandler`, then
`backend.Heartbeat(key, fence, leaseDuration)`. -/
def HeartbeatHandler (s : Store) (key fenceStr : String) (duration now : Int) :
    HandlerResult :=
  if key = "" then ⟨400, s, none⟩
  else if fenceStr = "" then ⟨400, s, none⟩
  else
    match parseInt64 fenceStr with
    | none => ⟨400, s, none⟩
    | some f =>
        match Heartbeat s key f duration now with
        | .ok s' => ⟨200, s', some (.heartbeat key f)⟩
        | .error _ => ⟨403, s, some (.heartbeat key f)⟩

/-- `ReleaseHandler`: same validation, then `backend.Release(key, fence)`.
The 400 paths and the backend call (the handler does forward the parsed fence
to `backend.Release`) are faithful to the source; the 200 success leg uses the
intent-modelled `Release` — against a real backend every Release call errors
with a `ValidationException` (surfaced as 500) because the source never binds
`:fence`, see the C3 theorem. -/
def ReleaseHandler (s : Store) (key fenceStr : String) : HandlerResult :=
  if key = "" then ⟨400, s, none⟩
  else if fenceStr = "" then ⟨400, s, none⟩
  else
    match parseInt64 fenceStr with
    | none => ⟨400, s, none⟩
    | some f => ⟨200, Release s key f, some (.release key f)⟩

inductive Method where
  | GET
  | PUT
  | POST
  | DELETE
deriving Repr, DecidableEq

/-- An incoming HTTP request, already URL-parsed: the method, the non-root
path segments, the `nonce` query parameter, the `nonce` POST form field, and
the raw request body. -/
structure HttpRequest where
  method : Method
  pathSegs : List String
  queryNonce : String
  formNonce : String
  body : String
deriving Repr, DecidableEq

/-- No route matched (gorilla/mux answers 404 or 405; neither reaches any
handler or the backend). -/
def noMatch (s : Store) : HandlerResult := ⟨404, s, none⟩

/-- The gorilla/mux route table of `routes()`:
`/locks/{key}` for PUT/POST → Acquire, `/locks/{key}/{fence}` for PUT/POST →
UpdateValue, `/locks/{key}/{fence}/heartbeat` for POST → Heartbeat, and
`/locks/{key}` for DELETE → Release.  A `{var}` segment matches one non-empty
segment.  The DELETE route has no `{fence}` variable, so `ReleaseHandler`
reads `mux.Vars(r)["fence"] = ""`. -/
def dispatch (s : Store) (req : HttpRequest) (duration now : Int) : HandlerResult :=
  match req.pathSegs with
  | [a, k] =>
      if a = "locks" ∧ k ≠ "" then
        if req.method = .PUT ∨ req.method = .POST then
          AcquireHandler s k req.queryNonce req.formNonce duration now
        else if req.method = .DELETE then
          ReleaseHandler s k ""
        else noMatch s
      else noMatch s
  | [a, k, f] =>
      if a = "locks" ∧ k ≠ "" ∧ f ≠ "" then
        if req.method = .PUT ∨ req.method = .POST then
          UpdateValueHandler s k f req.body duration now
        else noMatch s
      else noMatch s
  | [a, k, f, b] =>
      if a = "locks" ∧ k ≠ "" ∧ f ≠ "" ∧ b = "heartbeat" then
        if req.method = .POST then HeartbeatHandler s k f duration now
        else noMatch s
      else noMatch s
  | _ => noMatch s

/-- A 65-byte (all-ASCII) nonce, one byte over the 64-byte bound. -/
def longNonce : String := String.mk (List.replicate 65 'a')

/-! ### Store lemmas -/

theorem find_put_self (s : Store) (n : String) (r : LeaseRecord) :
    (s.put n r).find n = some r := by
  induction s with
  | nil => simp [Store.put, Store.find]
  | cons hd tl ih =>
      obtain ⟨n0, r0⟩ := hd
      by_cases h : n0 = n
      · subst h
        simp [Store.put, Store.find]
      · simp [Store.put, Store.find, h, ih]

theorem find_put_ne (s : Store) (n m : String) (r : LeaseRecord) (h : n ≠ m) :
    (s.put n r).find m = s.find m := by
  induction s with
  | nil => simp [Store.put, Store.find, h]
  | cons hd tl ih =>
      obtain ⟨n0, r0⟩ := hd
      by_cases h0 : n0 = n
      · subst h0
        simp [Store.put, Store.find, h]
      · by_cases h1 : n0 = m <;> simp [Store.put, Store.find, h0, h1, ih, Ne.symm h]

theorem fenceOf_put (s : Store) (n : String) (r : LeaseRecord) (m : String) :
    fenceOf (s.put n r) m = if n = m then r.fence else fenceOf s m := by
  by_cases h : n = m
  · subst h
    simp [fenceOf, find_put_self]
  · simp [fenceOf, find_put_ne s n m r h, h]

/-! ### Inversion of the successful conditional updates -/

theorem Acquire_ok_inv (s : Store) (name nonce : String) (d t : Int)
    (a : Acquisition) (s' : Store) (h : Acquire s name nonce d t = .ok (a, s')) :
    ∃ b, s' = s.put name ⟨nonce, fenceOf s name + 1, t, t, t + d, b⟩ ∧
      a = ⟨t, t + d, fenceOf s name + 1, b⟩ := by
  cases hf : s.find name with
  | none =>
      simp only [Acquire, hf, Except.ok.injEq, Prod.mk.injEq] at h
      obtain ⟨ha, hs⟩ := h
      exact ⟨"", by simp [fenceOf, hf, ← ha, ← hs]⟩
  | some old =>
      simp only [Acquire, hf] at h
      split at h
      · simp only [Except.ok.injEq, Prod.mk.injEq] at h
        obtain ⟨ha, hs⟩ := h
        refine ⟨old.body, ?_, ?_⟩ <;> simp [fenceOf, hf, ← ha, ← hs]
      · cases h

theorem Heartbeat_ok_inv (s : Store) (name : String) (f e t : Int) (s' : Store)
    (h : Heartbeat s name f e t = .ok s') :
    ∃ r, s.find name = some r ∧ t < r.expireTime ∧ r.fence = f ∧
      s' = s.put name { r with heartbeatTime := t, expireTime := t + e } := by
  cases hf : s.find name with
  | none =>
      simp only [Heartbeat, hf] at h
      cases h
  | some r =>
      simp only [Heartbeat, hf] at h
      split at h
      · next hc =>
          simp only [Except.ok.injEq] at h
          exact ⟨r, rfl, hc.1, hc.2, h.symm⟩
      · cases h

theorem UpdateValue_ok_inv (s : Store) (name : String) (f e : Int) (v : String)
    (t : Int) (s' : Store) (h : UpdateValue s name f e v t = .ok s') :
    ∃ r, s.find name = some r ∧ t < r.expireTime ∧ r.fence = f ∧
      s' = s.put name
        { r with body := v, heartbeatTime := t, expireTime := t + e } := by
  cases hf : s.find name with
  | none =>
      simp only [UpdateValue, hf] at h
      cases h
  | some r =>
      simp only [UpdateValue, hf] at h
      split at h
      · next hc =>
          simp only [Except.ok.injEq] at h
          exact ⟨r, rfl, hc.1, hc.2, h.symm⟩
      · cases h

/-! ### Fence behaviour of each operation -/

theorem fenceOf_heartbeat_ok (s : Store) (name : String) (f e t : Int)
    (s' : Store) (h : Heartbeat s name f e t = .ok s') (n : String) :
    fenceOf s' n = fenceOf s n := by
  obtain ⟨r, hfind, _, _, hs⟩ := Heartbeat_ok_inv s name f e t s' h
  subst hs
  rw [fenceOf_put]
  by_cases hn : name = n
  · subst hn
    simp [fenceOf, hfind]
  · simp [hn]

theorem fenceOf_updateValue_ok (s : Store) (name : String) (f e : Int)
    (v : String) (t : Int) (s' : Store) (h : UpdateValue s name f e v t = .ok s')
    (n : String) : fenceOf s' n = fenceOf s n := by
  obtain ⟨r, hfind, _, _, hs⟩ := UpdateValue_ok_inv s name f e v t s' h
  subst hs
  rw [fenceOf_put]
  by_cases hn : name = n
  · subst hn
    simp [fenceOf, hfind]
  · simp [hn]

theorem fenceOf_release (s : Store) (name : String) (f : Int) (n : String) :
    fenceOf (Release s name f) n = fenceOf s n := by
  cases hf : s.find name with
  | none => simp [Release, hf]
  | some r =>
      by_cases hc : r.fence = f
      · simp only [Release, hf, if_pos hc, fenceOf_put]
        by_cases hn : name = n
        · subst hn
          simp [fenceOf, hf]
        · simp [hn]
      · simp [Release, hf, hc]

theorem fenceOf_applyOp_le (s : Store) (op : Op) (n : String) :
    fenceOf s n ≤ fenceOf (applyOp s op) n := by
  cases op with
  | acquire name nonce d t =>
      simp only [applyOp]
      cases h : Acquire s name nonce d t with
      | ok p =>
          obtain ⟨a, s'⟩ := p
          obtain ⟨b, hs, _⟩ := Acquire_ok_inv s name nonce d t a s' h
          subst hs
          rw [fenceOf_put]
          by_cases hn : name = n
          · subst hn
            rw [if_pos rfl]
            show fenceOf s name ≤ fenceOf s name + 1
            omega
          · rw [if_neg hn]
      | error _ => exact le_refl _
  | heartbeat name f e t =>
      simp only [applyOp]
      cases h : Heartbeat s name f e t with
      | ok s' => exact le_of_eq (fenceOf_heartbeat_ok s name f e t s' h n).symm
      | error _ => exact le_refl _
  | updateValue name f e v t =>
      simp only [applyOp]
      cases h : UpdateValue s name f e v t with
      | ok s' => exact le_of_eq (fenceOf_updateValue_ok s name f e v t s' h n).symm
      | error _ => exact le_refl _
  | release name f =>
      simp only [applyOp]
      exact le_of_eq (fenceOf_release s name f n).symm

theorem fenceOf_applyOps_le (s : Store) (ops : List Op) (n : String) :
    fenceOf s n ≤ fenceOf (applyOps s ops) n := by
  induction ops generalizing s with
  | nil => exact le_refl _
  | cons op rest ih =>
      have hstep : applyOps s (op :: rest) = applyOps (applyOp s op) rest := rfl
      rw [hstep]
      exact le_trans (fenceOf_applyOp_le s op n) (ih (applyOp s op))

/-! ### Claim theorems -/

/-- C1 (counterexample to the claim as stated): with a stored record whose
`expireTime` equals the current instant (100) and a different stored nonce,
the claim's success condition holds (`expireTime` is not strictly after
`now`), yet Acquire fails with `leaseHeld`: the store condition is the strict
`ExpireTime < :now`, so the boundary case is not acquirable. -/
theorem acquire_boundary_counterexample :
    LeaseRecord.expireTime ⟨"a", 1, 0, 0, 100, ""⟩ ≤ 100 ∧
    Store.find [("k", ⟨"a", 1, 0, 0, 100, ""⟩)] "k" = some ⟨"a", 1, 0, 0, 100, ""⟩ ∧
    LeaseRecord.nonce ⟨"a", 1, 0, 0, 100, ""⟩ ≠ "b" ∧
    Acquire [("k", ⟨"a", 1, 0, 0, 100, ""⟩)] "k" "b" 30 100 = .error .leaseHeld ∧
    acquireOk [("k", ⟨"a", 1, 0, 0, 100, ""⟩)] "k" "b" 30 100 = false := by
  decide

/-- C1 (amended): `Acquire(name, nonce, duration)` succeeds if and only if the
record for `name` is absent, or the record's `expireTime` is strictly before
the current instant (at the boundary `expireTime = now` the lease still counts
as held for Acquire), or the stored nonce equals the supplied nonce; in every
other case it fails with `leaseHeld`. -/
theorem acquire_success_iff (s : Store) (name nonce : String) (d t : Int) :
    (acquireOk s name nonce d t = true ↔
      s.find name = none ∨
        ∃ r, s.find name = some r ∧ (r.expireTime < t ∨ r.nonce = nonce)) ∧
    (acquireOk s name nonce d t = false →
      Acquire s name nonce d t = .error .leaseHeld) := by
  constructor
  · cases hf : s.find name with
    | none => simp [acquireOk, Acquire, hf]
    | some r =>
        by_cases hc : r.expireTime < t ∨ r.nonce = nonce <;>
          simp [acquireOk, Acquire, hf, hc]
  · cases hf : s.find name with
    | none => simp [acquireOk, Acquire, hf]
    | some r =>
        by_cases hc : r.expireTime < t ∨ r.nonce = nonce <;>
          simp [acquireOk, Acquire, hf, hc]

theorem acquire_success_iff_witness :
    Acquire [("k", ⟨"a", 1, 0, 0, 100, ""⟩)] "k" "b" 30 100 = .error .leaseHeld :=
  (acquire_success_iff [("k", ⟨"a", 1, 0, 0, 100, ""⟩)] "k" "b" 30 100).2 (by decide)

/-- C2: the fence never decreases under any sequence of the four operations;
every successful Acquire returns, and stores, a fence exactly one above the
previously stored fence (so the first successful Acquire on a never-acquired
name returns fence 1); Heartbeat, MutateValue and Release leave every stored
fence unchanged. -/
theorem fence_monotonic :
    (∀ (s : Store) (ops : List Op) (n : String),
        fenceOf s n ≤ fenceOf (applyOps s ops) n) ∧
    (∀ (s : Store) (name nonce : String) (d t : Int) (a : Acquisition)
        (s' : Store), Acquire s name nonce d t = .ok (a, s') →
        a.fence = fenceOf s name + 1 ∧ fenceOf s' name = fenceOf s name + 1) ∧
    (∀ (s : Store) (name nonce : String) (d t : Int) (a : Acquisition)
        (s' : Store), s.find name = none →
        Acquire s name nonce d t = .ok (a, s') → a.fence = 1) ∧
    (∀ (s : Store) (name : String) (f e t : Int) (s' : Store) (n : String),
        Heartbeat s name f e t = .ok s' → fenceOf s' n = fenceOf s n) ∧
    (∀ (s : Store) (name : String) (f e : Int) (v : String) (t : Int)
        (s' : Store) (n : String),
        UpdateValue s name f e v t = .ok s' → fenceOf s' n = fenceOf s n) ∧
    (∀ (s : Store) (name : String) (f : Int) (n : String),
        fenceOf (Release s name f) n = fenceOf s n) := by
  refine ⟨fenceOf_applyOps_le, ?_, ?_,
    fun s name f e t s' n h => fenceOf_heartbeat_ok s name f e t s' h n,
    fun s name f e v t s' n h => fenceOf_updateValue_ok s name f e v t s' h n,
    fenceOf_release⟩
  · intro s name nonce d t a s' h
    obtain ⟨b, hs, ha⟩ := Acquire_ok_inv s name nonce d t a s' h
    subst hs
    subst ha
    refine ⟨rfl, ?_⟩
    rw [fenceOf_put, if_pos rfl]
  · intro s name nonce d t a s' hnone h
    obtain ⟨b, _, ha⟩ := Acquire_ok_inv s name nonce d t a s' h
    subst ha
    show fenceOf s name + 1 = 1
    simp [fenceOf, hnone]

theorem fence_monotonic_witness :
    Acquisition.fence ⟨100, 130, 1, ""⟩ = fenceOf [] "k" + 1 ∧
    fenceOf [("k", ⟨"n1", 1, 100, 100, 130, ""⟩)] "k" = fenceOf [] "k" + 1 :=
  fence_monotonic.2.1 [] "k" "n1" 30 100 ⟨100, 130, 1, ""⟩
    [("k", ⟨"n1", 1, 100, 100, 130, ""⟩)] (by decide)

/-- C3 (code bug in the source): Release's `ConditionExpression` references
`:fence`, but its `ExpressionAttributeValues` binds only `:zero` — the `fence`
argument is never transmitted at all — while the other three calls bind every
placeholder their expressions use.  A real backend therefore rejects every
Release call with a `ValidationException` (not the swallowed
`ConditionalCheckFailedException`) before evaluating the condition, so Release
as written always returns an error and never zeroes `expireTime`,
contradicting the claim and the source's own comment that "any release will
succeed".  On the evident intent of the written condition (with `:fence`
bound), Release always reports success, a matching fence only sets
`expireTime` to 0 (the Unix epoch), and an absent record or a fence mismatch
mutates nothing at all. -/
theorem release_spec :
    expressionValuesBound [releaseConditionExpression, releaseUpdateExpression]
      releaseBoundValues = false ∧
    expressionValuesBound [acquireConditionExpression, acquireUpdateExpression]
      acquireBoundValues = true ∧
    expressionValuesBound [heartbeatConditionExpression, heartbeatUpdateExpression]
      heartbeatBoundValues = true ∧
    expressionValuesBound [updateValueConditionExpression, updateValueUpdateExpression]
      updateValueBoundValues = true ∧
    (∀ (s : Store) (name : String) (f : Int),
      (∀ r, s.find name = some r → r.fence = f →
          Release s name f = s.put name { r with expireTime := 0 }) ∧
      (s.find name = none → Release s name f = s) ∧
      (∀ r, s.find name = some r → r.fence ≠ f → Release s name f = s)) := by
  refine ⟨by decide, by decide, by decide, by decide, ?_⟩
  intro s name f
  refine ⟨?_, ?_, ?_⟩
  · intro r hr hfe
    simp [Release, hr, hfe]
  · intro hn
    simp [Release, hn]
  · intro r hr hfe
    simp [Release, hr, hfe]

theorem release_spec_witness :
    Release [] "neverheld" 7 = ([] : Store) :=
  ((release_spec.2.2.2.2) [] "neverheld" 7).2.1 rfl

/-- C4 (code bug in the source, modelled by intent): the Heartbeat
`UpdateExpression` omits the `=` of its first SET action
(`SET HeartbeatTime :now, ExpireTime = :expire`), unlike the well-formed
UpdateValue and Release expressions, so a real backend rejects every Heartbeat
request before evaluating the condition; the spec directs applying the evident
intent instead.  On the intended semantics, every successful Heartbeat sets
`heartbeatTime` to the current instant and `expireTime` to the current instant
plus the extension, and (being `s.put name { r with ... }`) leaves `body`,
`nonce`, `fence`, `acquireTime`, the record's name, and every other record
unchanged. -/
theorem heartbeat_effect :
    setClausesWellFormed heartbeatUpdateExpression = false ∧
    setClausesWellFormed updateValueUpdateExpression = true ∧
    setClausesWellFormed releaseUpdateExpression = true ∧
    (∀ (s : Store) (name : String) (f e t : Int) (s' : Store),
        Heartbeat s name f e t = .ok s' →
        ∃ r, s.find name = some r ∧
          s' = s.put name { r with heartbeatTime := t, expireTime := t + e }) := by
  refine ⟨by decide, by decide, by decide, ?_⟩
  intro s name f e t s' h
  obtain ⟨r, hr, _, _, hs⟩ := Heartbeat_ok_inv s name f e t s' h
  exact ⟨r, hr, hs⟩

theorem heartbeat_effect_witness :
    ∃ r, Store.find [("k", ⟨"n", 1, 0, 0, 100, ""⟩)] "k" = some r ∧
      ([("k", ⟨"n", 1, 0, 50, 80, ""⟩)] : Store) =
        Store.put [("k", ⟨"n", 1, 0, 0, 100, ""⟩)] "k"
          { r with heartbeatTime := 50, expireTime := 50 + 30 } :=
  heartbeat_effect.2.2.2 [("k", ⟨"n", 1, 0, 0, 100, ""⟩)] "k" 1 30 50
    [("k", ⟨"n", 1, 0, 50, 80, ""⟩)] (by decide)

/-- C5: Heartbeat and MutateValue (UpdateValue) called with a fence different
from the currently stored fence fail with `leaseExpiredOrFenced` — the same
single failure kind used when the lease has expired — whether or not the lease
has expired, and in that case mutate nothing. -/
theorem fence_mismatch_fails (s : Store) (name : String) (f e t : Int)
    (v : String) (r : LeaseRecord) (hfind : s.find name = some r)
    (hne : r.fence ≠ f) :
    Heartbeat s name f e t = .error .leaseExpiredOrFenced ∧
    UpdateValue s name f e v t = .error .leaseExpiredOrFenced ∧
    applyOp s (.heartbeat name f e t) = s ∧
    applyOp s (.updateValue name f e v t) = s := by
  have h1 : Heartbeat s name f e t = .error .leaseExpiredOrFenced := by
    simp [Heartbeat, hfind, hne]
  have h2 : UpdateValue s name f e v t = .error .leaseExpiredOrFenced := by
    simp [UpdateValue, hfind, hne]
  exact ⟨h1, h2, by simp [applyOp, h1], by simp [applyOp, h2]⟩

theorem fence_mismatch_fails_witness :
    Heartbeat [("k", ⟨"n", 1, 0, 0, 100, ""⟩)] "k" 2 30 50 =
        .error .leaseExpiredOrFenced ∧
    UpdateValue [("k", ⟨"n", 1, 0, 0, 100, ""⟩)] "k" 2 30 "v" 50 =
        .error .leaseExpiredOrFenced ∧
    applyOp [("k", ⟨"n", 1, 0, 0, 100, ""⟩)] (.heartbeat "k" 2 30 50) =
        [("k", ⟨"n", 1, 0, 0, 100, ""⟩)] ∧
    applyOp [("k", ⟨"n", 1, 0, 0, 100, ""⟩)] (.updateValue "k" 2 30 "v" 50) =
        [("k", ⟨"n", 1, 0, 0, 100, ""⟩)] :=
  fence_mismatch_fails [("k", ⟨"n", 1, 0, 0, 100, ""⟩)] "k" 2 30 50 "v"
    ⟨"n", 1, 0, 0, 100, ""⟩ (by decide) (by decide)

/-- C6: a successful MutateValue (UpdateValue) atomically sets the body and
renews the lease in the same conditional update: a subsequent read of the
record yields `body = v`, `heartbeatTime` equal to the mutation instant, and
`expireTime` equal to the mutation instant plus the extension. -/
theorem mutate_roundtrip (s : Store) (name : String) (f d : Int) (v : String)
    (t : Int) (s' : Store) (h : UpdateValue s name f d v t = .ok s') :
    ∃ r, s.find name = some r ∧
      s'.find name =
        some { r with body := v, heartbeatTime := t, expireTime := t + d } := by
  obtain ⟨r, hr, _, _, hs⟩ := UpdateValue_ok_inv s name f d v t s' h
  exact ⟨r, hr, by rw [hs, find_put_self]⟩

theorem mutate_roundtrip_witness :
    ∃ r, Store.find [("k", ⟨"n", 1, 0, 0, 100, ""⟩)] "k" = some r ∧
      Store.find [("k", ⟨"n", 1, 0, 50, 80, "X"⟩)] "k" =
        some { r with body := "X", heartbeatTime := 50, expireTime := 50 + 30 } :=
  mutate_roundtrip [("k", ⟨"n", 1, 0, 0, 100, ""⟩)] "k" 1 30 "X" 50
    [("k", ⟨"n", 1, 0, 50, 80, "X"⟩)] (by decide)

/-! ### Transport lemmas -/

theorem ReleaseHandler_no_fence (s : Store) (k : String) :
    ReleaseHandler s k "" = ⟨400, s, none⟩ := by
  by_cases h : k = "" <;> simp [ReleaseHandler, h]

theorem AcquireHandler_call_cases (s : Store) (k q fo : String) (d t : Int) :
    (AcquireHandler s k q fo d t).call = none ∨
    (AcquireHandler s k q fo d t).call = some (.acquire k (effectiveNonce q fo)) := by
  unfold AcquireHandler
  split
  · exact Or.inl rfl
  · split
    · exact Or.inl rfl
    · split <;> (split <;> exact Or.inr rfl)

theorem UpdateValueHandler_call_cases (s : Store) (k fs v : String) (d t : Int) :
    (UpdateValueHandler s k fs v d t).call = none ∨
    ∃ f, parseInt64 fs = some f ∧
      (UpdateValueHandler s k fs v d t).call = some (.updateValue k f v) := by
  unfold UpdateValueHandler
  split
  · exact Or.inl rfl
  · split
    · exact Or.inl rfl
    · split
      · exact Or.inl rfl
      · next f hf => split <;> exact Or.inr ⟨f, hf, rfl⟩

theorem HeartbeatHandler_call_cases (s : Store) (k fs : String) (d t : Int) :
    (HeartbeatHandler s k fs d t).call = none ∨
    ∃ f, parseInt64 fs = some f ∧
      (HeartbeatHandler s k fs d t).call = some (.heartbeat k f) := by
  unfold HeartbeatHandler
  split
  · exact Or.inl rfl
  · split
    · exact Or.inl rfl
    · split
      · exact Or.inl rfl
      · next f hf => split <;> exact Or.inr ⟨f, hf, rfl⟩

/-! ### Transport claim theorems -/

/-- C7 (code bug in the source): a missing key, an empty nonce, and an empty
or non-numeric fence are all rejected with status 400 before any backend call
and with no store mutation; but an oversized nonce (here 65 ASCII bytes) is
NOT rejected before the backend call: the handler writes the 400 response and,
lacking a `return` after it, falls through and still calls `backend.Acquire`,
which here acquires the lease (a fresh record with fence 1 is created). -/
theorem malformed_input_handling :
    AcquireHandler [] "" "n" "" 30 100 = ⟨400, [], none⟩ ∧
    AcquireHandler [] "k" "" "" 30 100 = ⟨400, [], none⟩ ∧
    HeartbeatHandler [] "k" "12x" 30 100 = ⟨400, [], none⟩ ∧
    UpdateValueHandler [] "k" "" "v" 30 100 = ⟨400, [], none⟩ ∧
    UpdateValueHandler [] "k" "9a" "v" 30 100 = ⟨400, [], none⟩ ∧
    ReleaseHandler [] "k" "x1" = ⟨400, [], none⟩ ∧
    AcquireHandler [] "k" longNonce "" 30 100 =
      ⟨400, [("k", ⟨longNonce, 1, 100, 100, 130, ""⟩)],
        some (.acquire "k" longNonce)⟩ := by
  decide

/-- C8: `backend.Release` is unreachable through the HTTP transport: no
dispatched request ever issues a release backend call; a `DELETE /locks/k`
request matches the Release route, whose handler finds the fence path
variable empty and answers 400 without touching the backend; and a
`DELETE /locks/k/f` request matches no route at all. -/
theorem release_unreachable (s : Store) (req : HttpRequest) (d t : Int) :
    (∀ (name : String) (f : Int),
        (dispatch s req d t).call ≠ some (.release name f)) ∧
    (req.method = .DELETE → ∀ k, k ≠ "" → req.pathSegs = ["locks", k] →
        dispatch s req d t = ⟨400, s, none⟩) ∧
    (req.method = .DELETE → ∀ k f, req.pathSegs = ["locks", k, f] →
        dispatch s req d t = noMatch s) := by
  obtain ⟨m, segs, q, fo, b⟩ := req
  refine ⟨?_, ?_, ?_⟩
  · intro nm f
    rcases segs with _ | ⟨a, _ | ⟨k, _ | ⟨f1, _ | ⟨b1, rest⟩⟩⟩⟩
    · simp [dispatch, noMatch]
    · simp [dispatch, noMatch]
    · simp only [dispatch]
      split
      · split
        · rcases AcquireHandler_call_cases s k q fo d t with h0 | h0 <;>
            simp [h0]
        · split
          · rw [ReleaseHandler_no_fence]
            simp
          · simp [noMatch]
      · simp [noMatch]
    · simp only [dispatch]
      split
      · split
        · rcases UpdateValueHandler_call_cases s k f1 b d t with h0 | ⟨f2, _, h0⟩ <;>
            simp [h0]
        · simp [noMatch]
      · simp [noMatch]
    · rcases rest with _ | ⟨x, xs⟩
      · simp only [dispatch]
        split
        · split
          · rcases HeartbeatHandler_call_cases s k f1 d t with h0 | ⟨f2, _, h0⟩ <;>
              simp [h0]
          · simp [noMatch]
        · simp [noMatch]
      · simp [dispatch, noMatch]
  · intro hm k hk hsegs
    subst hm
    subst hsegs
    simp [dispatch, hk, ReleaseHandler_no_fence]
  · intro hm k f1 hsegs
    subst hm
    subst hsegs
    simp only [dispatch]
    split
    · simp [noMatch]
    · rfl

theorem release_unreachable_witness :
    dispatch [] ⟨.DELETE, ["locks", "k"], "", "", ""⟩ 30 100 = ⟨400, [], none⟩ :=
  (release_unreachable [] ⟨.DELETE, ["locks", "k"], "", "", ""⟩ 30 100).2.1
    rfl "k" (by decide) rfl

/-- C9: the Acquire nonce is taken from the `nonce` URL query parameter; the
POST form field is consulted only when the query parameter is empty (so the
query value wins when both are present — with a non-empty query value the
handler behaves identically whatever the form field holds); with both empty
the request is rejected with 400 and no backend call. -/
theorem acquire_nonce_source :
    (∀ (s : Store) (k q fo : String) (d t : Int) (k' n : String),
        (AcquireHandler s k q fo d t).call = some (.acquire k' n) →
        n = if q = "" then fo else q) ∧
    (∀ (s : Store) (k q fo : String) (d t : Int), q ≠ "" →
        AcquireHandler s k q fo d t = AcquireHandler s k q "" d t) ∧
    (∀ (s : Store) (k : String) (d t : Int),
        AcquireHandler s k "" "" d t = ⟨400, s, none⟩) := by
  refine ⟨?_, ?_, ?_⟩
  · intro s k q fo d t k' n h
    rcases AcquireHandler_call_cases s k q fo d t with h0 | h0
    · rw [h0] at h
      cases h
    · rw [h0] at h
      simp only [Option.some.injEq, BackendCall.acquire.injEq] at h
      rw [← h.2]
      rfl
  · intro s k q fo d t hq
    simp [AcquireHandler, effectiveNonce, hq]
  · intro s k d t
    by_cases hk : k = "" <;> simp [AcquireHandler, effectiveNonce, hk]

theorem acquire_nonce_source_witness :
    ("q1" : String) = if ("q1" : String) = "" then "f1" else "q1" :=
  acquire_nonce_source.1 [] "k" "q1" "f1" 30 100 "k" "q1" (by decide)

/-- C10: any fence path value that parses as a signed 64-bit decimal integer —
zero and negative values included — is accepted by the Heartbeat, UpdateValue
and Release handlers and forwarded unchanged to the backend; the only
restriction imposed is `strconv.ParseInt(fence, 10, 64)` itself, whose
boundary behaviour (int64 limits, sign handling, rejection of overflow and of
the empty string) is pinned by the closed facts. -/
theorem fence_forwarding :
    (∀ (s : Store) (k fs : String) (f : Int) (v : String) (e t : Int),
        parseInt64 fs = some f → k ≠ "" →
        (HeartbeatHandler s k fs e t).call = some (.heartbeat k f) ∧
        (UpdateValueHandler s k fs v e t).call = some (.updateValue k f v) ∧
        (ReleaseHandler s k fs).call = some (.release k f)) ∧
    parseInt64 "0" = some 0 ∧
    parseInt64 "-5" = some (-5) ∧
    parseInt64 "+7" = some 7 ∧
    parseInt64 "9223372036854775807" = some (2 ^ 63 - 1) ∧
    parseInt64 "-9223372036854775808" = some (-(2 ^ 63)) ∧
    parseInt64 "9223372036854775808" = none ∧
    parseInt64 "" = none := by
  refine ⟨?_, by decide, by decide, by decide, by decide, by decide, by decide,
    by decide⟩
  intro s k fs f v e t hp hk
  have hfs : fs ≠ "" := by
    intro h0
    subst h0
    simp [parseInt64, digitsToNat] at hp
  refine ⟨?_, ?_, ?_⟩
  · simp only [HeartbeatHandler, hk, hfs, hp, if_neg]
    cases hH : Heartbeat s k f e t <;> simp [hH]
  · simp only [UpdateValueHandler, hk, hfs, hp, if_neg]
    cases hU : UpdateValue s k f e v t <;> simp [hU]
  · simp only [ReleaseHandler, hk, hfs, hp, if_neg]
    simp

theorem fence_forwarding_witness :
    (HeartbeatHandler [] "k" "-5" 30 100).call = some (.heartbeat "k" (-5)) ∧
    (UpdateValueHandler [] "k" "-5" "v" 30 100).call =
        some (.updateValue "k" (-5) "v") ∧
    (ReleaseHandler [] "k" "-5").call = some (.release "k" (-5)) :=
  fence_forwarding.1 [] "k" "-5" (-5) "v" 30 100 (by decide) (by decide)

end Glock
